import Mathlib

/-!
Verification development for the RSS feed health checker
(src/health_checker/main.go).

The Go program is embedded shallowly: strings are modelled as `String` or
`List Char` (the scanned markers and date layouts are ASCII, so byte-wise
operations of the Go code coincide with character-wise operations here),
the network is an explicit oracle parameter, and `time.Time` values are
modelled by their instant (seconds and nanoseconds relative to the Go zero
time 0001-01-01T00:00:00 UTC).
-/

namespace RSSHealth

/-! ## Character and string helpers (models of Go strings functions) -/

/-- ASCII lower-casing of one character: the folding used by the match
helper of the Go time package for layout names, which folds exactly the
ASCII letters. -/
def lowerChar (c : Char) : Char :=
  if 65 ≤ c.toNat && c.toNat ≤ 90 then Char.ofNat (c.toNat + 32) else c

/-- unicode.ToLower restricted to what an ASCII marker scan can observe:
besides A-Z, the only code points that lower-case into ASCII are the dotted
capital I (U+0130, to i) and the Kelvin sign (U+212A, to k); every other
character either keeps or stays outside ASCII and never equals an ASCII
marker character. -/
def goLowerChar (c : Char) : Char :=
  if 65 ≤ c.toNat && c.toNat ≤ 90 then Char.ofNat (c.toNat + 32)
  else if c.toNat == 0x130 then 'i'
  else if c.toNat == 0x212A then 'k'
  else c

/-- Model of strings.ToLower on the character list of a string. -/
def lowerStr (s : List Char) : List Char := s.map goLowerChar

/-- Unicode simple case folding as observed by an ASCII regex character:
besides A-Z, only the long s (U+017F, to s) and the Kelvin sign (U+212A,
to k) fold into ASCII.  This is the folding of the (?i) flag of Go regexp. -/
def reFoldChar (c : Char) : Char :=
  if 65 ≤ c.toNat && c.toNat ≤ 90 then Char.ofNat (c.toNat + 32)
  else if c.toNat == 0x17F then 's'
  else if c.toNat == 0x212A then 'k'
  else c

/-- Whitespace recognized by strings.TrimSpace: unicode.IsSpace, that is
the White_Space property (U+0009-U+000D, space, NEL, NBSP, OGHAM SPACE,
U+2000-U+200A, LINE and PARAGRAPH SEPARATOR, NNBSP, MMSP, IDEOGRAPHIC
SPACE). -/
def isSpaceChar (c : Char) : Bool :=
  c == ' ' || c == '\t' || c == '\n' || c == '\x0b' || c == '\x0c' || c == '\r' ||
  c.toNat == 0x85 || c.toNat == 0xA0 || c.toNat == 0x1680 ||
  (0x2000 ≤ c.toNat && c.toNat ≤ 0x200A) ||
  c.toNat == 0x2028 || c.toNat == 0x2029 || c.toNat == 0x202F ||
  c.toNat == 0x205F || c.toNat == 0x3000

/-- Model of strings.TrimSpace. -/
def trimSpace (s : List Char) : List Char :=
  ((s.dropWhile isSpaceChar).reverse.dropWhile isSpaceChar).reverse

/-- Does `s` begin with `pat` (exact, case-sensitive)? -/
def beginsWith : List Char → List Char → Bool
  | [], _ => true
  | _ :: _, [] => false
  | p :: ps, c :: cs => p == c && beginsWith ps cs

/-- Case-insensitive variant of `beginsWith` with ASCII folding; the
pattern is given in lower case.  This is the match helper of the Go time
package. -/
def ciBeginsWith : List Char → List Char → Bool
  | [], _ => true
  | _ :: _, [] => false
  | p :: ps, c :: cs => p == lowerChar c && ciBeginsWith ps cs

/-- Case-insensitive prefix with the regexp folding `reFoldChar`; the
pattern is given in lower case. -/
def reBeginsWith : List Char → List Char → Bool
  | [], _ => true
  | _ :: _, [] => false
  | p :: ps, c :: cs => p == reFoldChar c && reBeginsWith ps cs

/-- Model of strings.Contains. -/
def strContains : List Char → List Char → Bool
  | [], pat => beginsWith pat []
  | c :: cs, pat => beginsWith pat (c :: cs) || strContains cs pat

/-- Model of strings.TrimPrefix: drop one leading occurrence of `pat`. -/
def trimHead (s pat : List Char) : List Char :=
  if beginsWith pat s then s.drop pat.length else s

/-- Model of strings.TrimSuffix: drop one trailing occurrence of `pat`. -/
def trimTail (s pat : List Char) : List Char :=
  if beginsWith pat.reverse s.reverse then s.take (s.length - pat.length) else s

def isDigitChar (c : Char) : Bool := 48 ≤ c.toNat && c.toNat ≤ 57

def digitVal (c : Char) : Nat := c.toNat - 48

def digitsToNat (l : List Char) : Nat :=
  l.foldl (fun a c => a * 10 + digitVal c) 0

/-! ## Instants (model of time.Time values produced by time.Parse)

A parsed Go time is fully determined by its instant, because the claims
only use After, IsZero, UTC and Format on parsed values.  The instant is
measured from the Go zero time 0001-01-01T00:00:00 UTC. -/

structure GoTime where
  sec : Int
  nsec : Nat
  deriving DecidableEq, Repr

/-- The zero value of time.Time. -/
def zeroGoTime : GoTime := ⟨0, 0⟩

/-- Model of t.After(u): strict comparison of instants. -/
def afterB (t u : GoTime) : Bool :=
  decide (u.sec < t.sec) || (t.sec == u.sec && decide (u.nsec < t.nsec))

/-- Model of t.IsZero(). -/
def isZeroB (t : GoTime) : Bool := t.sec == 0 && t.nsec == 0

/-! ## Proleptic Gregorian calendar arithmetic -/

def isLeapYear (y : Int) : Bool :=
  y.emod 4 == 0 && (y.emod 100 != 0 || y.emod 400 == 0)

/-- Model of the Go time package daysIn. -/
def daysInMonth (m : Nat) (y : Int) : Nat :=
  if m == 2 then (if isLeapYear y then 29 else 28)
  else if m == 4 || m == 6 || m == 9 || m == 11 then 30
  else 31

/-- Days from the civil date (y, m, d) to 1970-01-01, negated when before
the epoch; the standard days-from-civil algorithm with floor division. -/
def daysFromCivil (y : Int) (m d : Nat) : Int :=
  let y2 : Int := if m ≤ 2 then y - 1 else y
  let era : Int := Int.fdiv y2 400
  let yoe : Int := y2 - era * 400
  let mp : Nat := (m + 9) % 12
  let doy : Int := Int.ofNat ((153 * mp + 2) / 5 + d - 1)
  let doe : Int := yoe * 365 + Int.fdiv yoe 4 - Int.fdiv yoe 100 + doy
  era * 146097 + doe - 719468

/-- Seconds since the Go zero time for a wall-clock reading in a zone with
the given offset (seconds east of UTC). -/
def secFromCivil (y : Int) (mo d h mi s : Nat) (offset : Int) : Int :=
  (daysFromCivil y mo d + 719162) * 86400 + Int.ofNat (h * 3600 + mi * 60 + s) - offset

/-- Inverse of `daysFromCivil`: the civil date of a day count since 1970-01-01. -/
def civilFromDays (z0 : Int) : Int × Nat × Nat :=
  let z := z0 + 719468
  let era : Int := Int.fdiv z 146097
  let doe : Nat := (z - era * 146097).toNat
  let yoe : Nat := (doe - doe / 1460 + doe / 36524 - doe / 146096) / 365
  let y : Int := Int.ofNat yoe + era * 400
  let doy : Nat := doe - (365 * yoe + yoe / 4 - yoe / 100)
  let mp : Nat := (5 * doy + 2) / 153
  let d : Nat := doy - (153 * mp + 2) / 5 + 1
  let m : Nat := if mp < 10 then mp + 3 else mp - 9
  (if m ≤ 2 then y + 1 else y, m, d)

def digitChar (n : Nat) : Char := Char.ofNat (48 + n)

def pad2 (n : Nat) : List Char := [digitChar (n / 10 % 10), digitChar (n % 10)]

/-- The year as printed by the Go appendInt with width 4: the magnitude in
full decimal, zero-padded to at least four digits, with a leading minus for
negative years (years outside 0..9999 are reachable through large parsed
zone offsets). -/
def padYear (y : Int) : List Char :=
  let digits := Nat.toDigits 10 y.natAbs
  let padded := List.replicate (4 - digits.length) '0' ++ digits
  if y < 0 then '-' :: padded else padded

/-- Model of t.UTC().Format(time.RFC3339): whole seconds are printed
without a fraction and the zone prints as Z. -/
def formatRFC3339UTC (t : GoTime) : String :=
  let days := Int.fdiv t.sec 86400
  let sod : Nat := (t.sec - days * 86400).toNat
  let c := civilFromDays (days - 719162)
  String.mk (padYear c.1 ++ ['-'] ++ pad2 c.2.1 ++ ['-'] ++ pad2 c.2.2 ++ ['T'] ++
    pad2 (sod / 3600) ++ [':'] ++ pad2 (sod / 60 % 60) ++ [':'] ++ pad2 (sod % 60) ++ ['Z'])

/-! ## Model of time.Parse for the layouts used by parseDateGuess

Each Go layout string is translated by hand into the list of standard
chunks that the time package recognizes in it; the interpreter below follows
the Go parse loop chunk by chunk.  Assumption baked in: the process local
time zone is UTC, so a parsed zone abbreviation never resolves to a real
zone and contributes offset 0, except for GMT+-h names, exactly as in the
Go fallback that fabricates a fixed zone. -/

inductive LTok where
  | lit (cs : List Char)
  | weekdayName
  | monthName
  | zeroDay
  | zeroMonth
  | longYear
  | twoYear
  | hourTok
  | zeroMinute
  | zeroSecond (fracNext : Bool)
  | fracSec9
  | tzAbbr
  | tzNum
  | tzISOColon
  deriving DecidableEq, Repr

/-- Wall-clock components accumulated while running a layout; Go defaults:
month and day 1, everything else 0. -/
structure DateParts where
  year : Int := 0
  month : Nat := 1
  day : Nat := 1
  hour : Nat := 0
  minute : Nat := 0
  second : Nat := 0
  nsec : Nat := 0
  offset : Int := 0
  deriving Repr

/-- Go getnum with fixed width: exactly two digits. -/
def getnum2 (s : List Char) : Option (Nat × List Char) :=
  match s with
  | a :: b :: rest =>
    if isDigitChar a && isDigitChar b then some (digitVal a * 10 + digitVal b, rest) else none
  | _ => none

/-- Go getnum without fixed width: one digit, or two when the second
character is also a digit. -/
def getnum12 (s : List Char) : Option (Nat × List Char) :=
  match s with
  | a :: b :: rest =>
    if isDigitChar a then
      if isDigitChar b then some (digitVal a * 10 + digitVal b, rest)
      else some (digitVal a, b :: rest)
    else none
  | [a] => if isDigitChar a then some (digitVal a, []) else none
  | [] => none

/-- Four digit year: Go slices four characters and runs atoi on them. -/
def getnum4 (s : List Char) : Option (Nat × List Char) :=
  match s with
  | a :: b :: c :: d :: rest =>
    if isDigitChar a && isDigitChar b && isDigitChar c && isDigitChar d then
      some (digitVal a * 1000 + digitVal b * 100 + digitVal c * 10 + digitVal d, rest)
    else none
  | _ => none

/-- Two digit year: Go slices two characters and runs atoi on them, which
also accepts a sign followed by one digit; the century pivot is then
applied to the signed value. -/
def getYear2 (s : List Char) : Option (Int × List Char) :=
  match s with
  | a :: b :: rest =>
    if isDigitChar a && isDigitChar b then
      some (Int.ofNat (digitVal a * 10 + digitVal b), rest)
    else if (a == '+' || a == '-') && isDigitChar b then
      some ((if a == '-' then -(Int.ofNat (digitVal b)) else Int.ofNat (digitVal b)), rest)
    else none
  | _ => none

def shortDayNames : List (List Char) :=
  ["sun".data, "mon".data, "tue".data, "wed".data, "thu".data, "fri".data, "sat".data]

def shortMonthNames : List (List Char) :=
  ["jan".data, "feb".data, "mar".data, "apr".data, "may".data, "jun".data,
   "jul".data, "aug".data, "sep".data, "oct".data, "nov".data, "dec".data]

/-- Go lookup over a name table: first case-insensitive prefix match wins. -/
def lookupNameFrom (i : Nat) : List (List Char) → List Char → Option (Nat × List Char)
  | [], _ => none
  | n :: ns, s =>
    if ciBeginsWith n s then some (i, s.drop n.length) else lookupNameFrom (i + 1) ns s

def commaOrPeriod (c : Char) : Bool := c == '.' || c == ','

/-- Go parseNanoseconds on a nonempty digit run: digits past the ninth are
consumed but truncated away, shorter runs are scaled up to nanoseconds. -/
def parseNanos (digits : List Char) : Nat :=
  digitsToNat (digits.take 9) * 10 ^ (9 - digits.length)

def isUpperChar (c : Char) : Bool := 65 ≤ c.toNat && c.toNat ≤ 90

/-- Go parseSignedOffset: length of a signed offset like +03 or -22; the
magnitude may be 0 through 23. -/
def parseSignedOffsetLen (s : List Char) : Nat :=
  match s with
  | sign :: rest =>
    if sign != '+' && sign != '-' then 0
    else
      let ds := rest.takeWhile isDigitChar
      if ds.isEmpty then 0
      else if digitsToNat ds > 23 then 0
      else 1 + ds.length
  | [] => 0

/-- Go parseGMT (Go 1.13 and later, as required by
http.NewRequestWithContext): GMT, optionally followed by a signed offset
accepted by parseSignedOffset. -/
def parseGMTLen (s : List Char) : Nat :=
  match s.drop 3 with
  | [] => 3
  | rest => 3 + parseSignedOffsetLen rest

/-- Go parseTimeZone: how many leading characters of `s` look like a time
zone abbreviation. -/
def parseTimeZoneLen (s : List Char) : Option Nat :=
  if s.length < 3 then none
  else if beginsWith "ChST".data s || beginsWith "MeST".data s then some 4
  else if beginsWith "GMT".data s then some (parseGMTLen s)
  else
    match s with
    | c :: _ =>
      if c == '+' || c == '-' then
        let n := parseSignedOffsetLen s
        if n > 0 then some n else none
      else
        match ((s.take 6).takeWhile isUpperChar).length with
        | 3 => some 3
        | 4 =>
          if (s.drop 3).take 1 == ['T'] || beginsWith "WITA".data s then some 4 else none
        | 5 => if (s.drop 4).take 1 == ['T'] then some 5 else none
        | _ => none
    | [] => none

/-- Go atoi restricted to the sign-and-digits shapes produced by parseGMT. -/
def goAtoi (s : List Char) : Int :=
  match s with
  | '-' :: ds => -(Int.ofNat (digitsToNat ds))
  | '+' :: ds => Int.ofNat (digitsToNat ds)
  | ds => Int.ofNat (digitsToNat ds)

/-- Offset of a fabricated zone: GMT+-h names carry h hours, every other
abbreviation gets offset 0 (local zone assumed UTC). -/
def zoneOffsetFor (zn : List Char) : Int :=
  if zn.length > 3 && beginsWith "GMT".data zn then goAtoi (zn.drop 3) * 3600
  else 0

/-- Consume an optional fractional second: a period or comma followed by a
digit run, rejected past nine digits. -/
def takeFrac (s : List Char) (c : DateParts) : Option (List Char × DateParts) :=
  match s with
  | p :: d :: _ =>
    if commaOrPeriod p && isDigitChar d then
      let ds := (s.drop 1).takeWhile isDigitChar
      some (s.drop (1 + ds.length), { c with nsec := parseNanos ds })
    else some (s, c)
  | _ => some (s, c)

/-- One step of the Go parse loop: consume one standard chunk. -/
def applyTok (t : LTok) (s : List Char) (c : DateParts) : Option (List Char × DateParts) :=
  match t with
  | .lit cs => if beginsWith cs s then some (s.drop cs.length, c) else none
  | .weekdayName =>
    match lookupNameFrom 0 shortDayNames s with
    | some x => some (x.2, c)
    | none => none
  | .monthName =>
    match lookupNameFrom 0 shortMonthNames s with
    | some x => some (x.2, { c with month := x.1 + 1 })
    | none => none
  | .zeroDay =>
    match getnum2 s with
    | some x => some (x.2, { c with day := x.1 })
    | none => none
  | .zeroMonth =>
    match getnum2 s with
    | some x => some (x.2, { c with month := x.1 })
    | none => none
  | .longYear =>
    match getnum4 s with
    | some x => some (x.2, { c with year := Int.ofNat x.1 })
    | none => none
  | .twoYear =>
    match getYear2 s with
    | some x =>
      some (x.2, { c with year := if x.1 ≥ 69 then 1900 + x.1 else 2000 + x.1 })
    | none => none
  | .hourTok =>
    match getnum12 s with
    | some x => some (x.2, { c with hour := x.1 })
    | none => none
  | .zeroMinute =>
    match getnum2 s with
    | some x => some (x.2, { c with minute := x.1 })
    | none => none
  | .zeroSecond fracNext =>
    match getnum2 s with
    | some x =>
      let c2 := { c with second := x.1 }
      if fracNext then some (x.2, c2) else takeFrac x.2 c2
    | none => none
  | .fracSec9 => takeFrac s c
  | .tzAbbr =>
    if beginsWith "UTC".data s then some (s.drop 3, { c with offset := 0 })
    else
      match parseTimeZoneLen s with
      | some n => some (s.drop n, { c with offset := zoneOffsetFor (s.take n) })
      | none => none
  | .tzNum =>
    match s with
    | sign :: r =>
      if sign == '+' || sign == '-' then
        match getnum2 r with
        | some x =>
          match getnum2 x.2 with
          | some y =>
            let off : Int := Int.ofNat (x.1 * 3600 + y.1 * 60)
            some (y.2, { c with offset := if sign == '-' then -off else off })
          | none => none
        | none => none
      else none
    | [] => none
  | .tzISOColon =>
    match s with
    | 'Z' :: r => some (r, { c with offset := 0 })
    | sign :: r =>
      if sign == '+' || sign == '-' then
        match getnum2 r with
        | some x =>
          match x.2 with
          | ':' :: r3 =>
            match getnum2 r3 with
            | some y =>
              let off : Int := Int.ofNat (x.1 * 3600 + y.1 * 60)
              some (y.2, { c with offset := if sign == '-' then -off else off })
            | none => none
          | _ => none
        | none => none
      else none
    | [] => none

def runToks : List LTok → List Char → DateParts → Option DateParts
  | [], s, c => if s.isEmpty then some c else none
  | t :: ts, s, c =>
    match applyTok t s c with
    | some x => runToks ts x.1 x.2
    | none => none

/-- Final range validation of the Go parse, then conversion to an instant. -/
def finishParse (c : DateParts) : Option GoTime :=
  if c.month < 1 || 12 < c.month then none
  else if c.day < 1 || daysInMonth c.month c.year < c.day then none
  else if 24 ≤ c.hour || 60 ≤ c.minute || 60 ≤ c.second then none
  else some ⟨secFromCivil c.year c.month c.day c.hour c.minute c.second c.offset, c.nsec⟩

/-- Model of time.Parse for one hand-translated layout. -/
def goTimeParse (toks : List LTok) (s : List Char) : Option GoTime :=
  match runToks toks s {} with
  | some c => finishParse c
  | none => none

/-! Hand translations of the layout strings in parseDateGuess. -/

/-- time.RFC1123, and also the literal layout repeated in the source. -/
def lytRFC1123 : List LTok :=
  [.weekdayName, .lit ", ".data, .zeroDay, .lit " ".data, .monthName, .lit " ".data,
   .longYear, .lit " ".data, .hourTok, .lit ":".data, .zeroMinute, .lit ":".data,
   .zeroSecond false, .lit " ".data, .tzAbbr]

def lytRFC1123Z : List LTok :=
  [.weekdayName, .lit ", ".data, .zeroDay, .lit " ".data, .monthName, .lit " ".data,
   .longYear, .lit " ".data, .hourTok, .lit ":".data, .zeroMinute, .lit ":".data,
   .zeroSecond false, .lit " ".data, .tzNum]

def lytRFC822 : List LTok :=
  [.zeroDay, .lit " ".data, .monthName, .lit " ".data, .twoYear, .lit " ".data,
   .hourTok, .lit ":".data, .zeroMinute, .lit " ".data, .tzAbbr]

def lytRFC822Z : List LTok :=
  [.zeroDay, .lit " ".data, .monthName, .lit " ".data, .twoYear, .lit " ".data,
   .hourTok, .lit ":".data, .zeroMinute, .lit " ".data, .tzNum]

def lytRFC3339 : List LTok :=
  [.longYear, .lit "-".data, .zeroMonth, .lit "-".data, .zeroDay, .lit "T".data,
   .hourTok, .lit ":".data, .zeroMinute, .lit ":".data, .zeroSecond false, .tzISOColon]

def lytRFC3339Nano : List LTok :=
  [.longYear, .lit "-".data, .zeroMonth, .lit "-".data, .zeroDay, .lit "T".data,
   .hourTok, .lit ":".data, .zeroMinute, .lit ":".data, .zeroSecond true, .fracSec9,
   .tzISOColon]

/-- Layout string 2006-01-02 15:04:05. -/
def lytDateTimeNoTZ : List LTok :=
  [.longYear, .lit "-".data, .zeroMonth, .lit "-".data, .zeroDay, .lit " ".data,
   .hourTok, .lit ":".data, .zeroMinute, .lit ":".data, .zeroSecond false]

/-- Layout string 02 Jan 2006. -/
def lytDayMonthYear : List LTok :=
  [.zeroDay, .lit " ".data, .monthName, .lit " ".data, .longYear]

/-- The layout list of parseDateGuess, in source order. -/
def goLayouts : List (List LTok) :=
  [lytRFC1123, lytRFC1123Z, lytRFC822, lytRFC822Z, lytRFC3339, lytRFC3339Nano,
   lytRFC1123, lytDateTimeNoTZ, lytDayMonthYear]

/-! ## parseDateGuess -/

/-- The normalization prefix of parseDateGuess: TrimSpace, TrimPrefix of the
CDATA opener, TrimSuffix of the CDATA closer, TrimSpace again. -/
def normalizeDateStr (s : List Char) : List Char :=
  trimSpace (trimTail (trimHead (trimSpace s) "<![CDATA[".data) "]]>".data)

/-- The layout loop of parseDateGuess: first successful parse wins. -/
def tryLayoutList : List (List LTok) → List Char → Option GoTime
  | [], _ => none
  | L :: Ls, s =>
    match goTimeParse L s with
    | some t => some t
    | none => tryLayoutList Ls s

/-- Model of parseDateGuess (src/health_checker/main.go lines 29-59);
none models the unparseable date error. -/
def parseDateGuess (s : String) : Option GoTime :=
  let n := normalizeDateStr s.data
  match tryLayoutList goLayouts n with
  | some t => some t
  | none => goTimeParse lytRFC1123 (n ++ " GMT".data)

/-- The date parsing contract as worded by the specification: normalize
(trim whitespace, strip optional CDATA wrapping), take the first successful
parse over the fixed ordered layout list, and otherwise make exactly one
fallback attempt with a default time zone suffix appended; none models the
DateUnparseable failure. -/
def specDateParse (s : String) : Option GoTime :=
  let n := normalizeDateStr s.data
  match goLayouts.findSome? (fun L => goTimeParse L n) with
  | some t => some t
  | none => goTimeParse lytRFC1123 (n ++ " GMT".data)

/-! ## Model of dateTagRE.FindAllStringSubmatch

The pattern is (?is)<(?:pubDate|published|updated|dc:date)>(.*?)</(?:...)>.
Go regexp semantics for this pattern: successive non-overlapping matches,
each starting at the leftmost feasible position, with the shortest capture
(non-greedy dot, newlines allowed).  The four tag names are pairwise
non-ambiguous at any position, so matching is deterministic. -/

def openTags : List (List Char) :=
  ["<pubdate>".data, "<published>".data, "<updated>".data, "<dc:date>".data]

def closeTags : List (List Char) :=
  ["</pubdate>".data, "</published>".data, "</updated>".data, "</dc:date>".data]

/-- Length of the alternation branch matching at the head of `s`, if any. -/
def matchLen : List (List Char) → List Char → Option Nat
  | [], _ => none
  | t :: ts, s => if reBeginsWith t s then some t.length else matchLen ts s

/-- Split at the first closing date tag: the capture up to it and the rest
after it.  none when no closing tag occurs. -/
def findCloseSplit : List Char → Option (List Char × List Char)
  | [] => none
  | c :: rest =>
    match matchLen closeTags (c :: rest) with
    | some n => some ([], (c :: rest).drop n)
    | none =>
      match findCloseSplit rest with
      | some x => some (c :: x.1, x.2)
      | none => none

/-- Fueled scan; the fuel only bounds the recursion, one unit per character
position, so the length of the input is always enough. -/
def scanDates : Nat → List Char → List (List Char)
  | 0, _ => []
  | _, [] => []
  | Nat.succ fuel, c :: rest =>
    match matchLen openTags (c :: rest) with
    | some n =>
      match findCloseSplit ((c :: rest).drop n) with
      | some x => x.1 :: scanDates fuel x.2
      | none => scanDates fuel rest
    | none => scanDates fuel rest

/-- The capture groups of dateTagRE.FindAllStringSubmatch(body, -1). -/
def extractDates (s : List Char) : List (List Char) := scanDates s.length s

/-! ## inspectFeedBody -/

/-- One iteration of the date loop in inspectFeedBody: parse the trimmed
capture, keep it when it is strictly after the running latest. -/
def latestStep (acc : GoTime) (m : List Char) : GoTime :=
  match parseDateGuess (String.mk (trimSpace m)) with
  | some t => if afterB t acc then t else acc
  | none => acc

/-- The latest parsed date of a body, seeded with the zero time. -/
def latestDate (body : List Char) : GoTime :=
  (extractDates body).foldl latestStep zeroGoTime

/-- Model of inspectFeedBody (src/health_checker/main.go lines 61-91).
Returns (isRSS, last, health). -/
def inspectFeedBody (body contentType : String) : Bool × String × String :=
  let lower := lowerStr body.data
  if strContains contentType.data "html".data || strContains lower "<html".data ||
      strContains lower "<!doctype html".data then
    (false, "", "not an rss feed")
  else if strContains lower "<rss".data || strContains lower "<feed".data ||
      strContains lower "<rdf:rdf".data || strContains lower "<item".data ||
      strContains lower "<entry".data then
    let latest := latestDate body.data
    if !isZeroB latest then (true, formatRFC3339UTC latest, "healthy")
    else (true, "", "healthy")
  else (false, "", "broken")

/-- The classifier as invoked by the worker: the declared content type is
lower-cased by the caller before inspectFeedBody runs (main.go line 183). -/
def classifyResponse (body contentType : String) : Bool × String × String :=
  inspectFeedBody body (String.mk (lowerStr contentType.data))

/-- The HTML short-circuit condition of the classification pipeline: the
lowered content type contains html, or the lowered body contains an HTML
document marker. -/
def htmlGate (body contentType : String) : Bool :=
  strContains (lowerStr contentType.data) "html".data ||
  strContains (lowerStr body.data) "<html".data ||
  strContains (lowerStr body.data) "<!doctype html".data

/-- The feed marker scan of inspectFeedBody. -/
def feedMarkerGate (body : String) : Bool :=
  strContains (lowerStr body.data) "<rss".data ||
  strContains (lowerStr body.data) "<feed".data ||
  strContains (lowerStr body.data) "<rdf:rdf".data ||
  strContains (lowerStr body.data) "<item".data ||
  strContains (lowerStr body.data) "<entry".data

def isAlphaChar (c : Char) : Bool :=
  (65 ≤ c.toNat && c.toNat ≤ 90) || (97 ≤ c.toNat && c.toNat ≤ 122)

def isHexChar (c : Char) : Bool :=
  isDigitChar c || (97 ≤ c.toNat && c.toNat ≤ 102) || (65 ≤ c.toNat && c.toNat ≤ 70)

def hexVal (c : Char) : Nat :=
  if isDigitChar c then c.toNat - 48
  else if 97 ≤ c.toNat then c.toNat - 87
  else c.toNat - 55

/-- stringContainsCTLByte: an ASCII control byte anywhere is rejected. -/
def containsCTL (s : List Char) : Bool :=
  s.any fun c => c.toNat < 0x20 || c.toNat == 0x7F

def takeUntil (stop : Char) (s : List Char) : List Char :=
  s.takeWhile fun c => c != stop

/-- Percent escapes of a path, userinfo or fragment are checked for
well-formedness only: every % must be followed by two hex digits. -/
def escapesOK : List Char → Bool
  | [] => true
  | '%' :: a :: b :: rest => isHexChar a && isHexChar b && escapesOK rest
  | '%' :: _ => false
  | _ :: rest => escapesOK rest

/-- shouldEscape for the host encoding: a byte must be alphanumeric or one
of the characters RFC 3986 allows raw in an authority. -/
def shouldEscapeHostByte (v : Nat) : Bool :=
  !((97 ≤ v && v ≤ 122) || (65 ≤ v && v ≤ 90) || (48 ≤ v && v ≤ 57) ||
    v == 0x21 || v == 0x24 || v == 0x26 || v == 0x27 || v == 0x28 || v == 0x29 ||
    v == 0x2A || v == 0x2B || v == 0x2C || v == 0x3B || v == 0x3D || v == 0x3A ||
    v == 0x5B || v == 0x5D || v == 0x3C || v == 0x3E || v == 0x22 ||
    v == 0x2D || v == 0x5F || v == 0x2E || v == 0x7E)

/-- unescape with the host encoding: escapes below 0x80 other than %25 are
rejected, raw characters below 0x80 must be allowed in a host. -/
def unescapeHost : List Char → Option (List Char)
  | [] => some []
  | '%' :: a :: b :: rest =>
    if isHexChar a && isHexChar b then
      if hexVal a < 8 && !(a == '2' && b == '5') then none
      else
        match unescapeHost rest with
        | some l => some (Char.ofNat (hexVal a * 16 + hexVal b) :: l)
        | none => none
    else none
  | '%' :: _ => none
  | c :: rest =>
    if c.toNat < 0x80 && shouldEscapeHostByte c.toNat then none
    else
      match unescapeHost rest with
      | some l => some (c :: l)
      | none => none

/-- unescape with the zone encoding (RFC 6874 zone of a bracketed IPv6
host): %25 and an escaped space are allowed, any other escape must decode
to a byte allowed raw in a host; raw characters as for a host. -/
def unescapeZone : List Char → Option (List Char)
  | [] => some []
  | '%' :: a :: b :: rest =>
    if isHexChar a && isHexChar b then
      let v := hexVal a * 16 + hexVal b
      if !(a == '2' && b == '5') && v != 0x20 && shouldEscapeHostByte v then none
      else
        match unescapeZone rest with
        | some l => some (Char.ofNat v :: l)
        | none => none
    else none
  | '%' :: _ => none
  | c :: rest =>
    if c.toNat < 0x80 && shouldEscapeHostByte c.toNat then none
    else
      match unescapeZone rest with
      | some l => some (c :: l)
      | none => none

/-- validOptionalPort: empty, or a colon followed by digits only. -/
def validOptPort : List Char → Bool
  | [] => true
  | ':' :: ds => ds.all isDigitChar
  | _ => false

/-- Index of the first occurrence of a pattern, as strings.Index. -/
def findSeqIdx (pat : List Char) : List Char → Option Nat
  | [] => none
  | c :: rest =>
    if beginsWith pat (c :: rest) then some 0
    else
      match findSeqIdx pat rest with
      | some i => some (i + 1)
      | none => none

/-- Model of net/url parseHost: a bracketed IPv6 form needs a closing
bracket, a valid optional port after it and zone-aware unescaping; a plain
host needs a valid port after its last colon; both are then unescaped with
the host encoding. -/
def parseHostChars (h : List Char) : Option (List Char) :=
  match h with
  | '[' :: _ =>
    if h.contains ']' then
      let afterBr := (h.reverse.takeWhile fun c => c != ']').reverse
      if validOptPort afterBr then
        let brIdx := h.length - afterBr.length - 1
        let hostPre := h.take brIdx
        match findSeqIdx "%25".data hostPre with
        | some z =>
          match unescapeHost (hostPre.take z), unescapeZone (hostPre.drop z),
              unescapeHost (h.drop brIdx) with
          | some h1, some h2, some h3 => some (h1 ++ h2 ++ h3)
          | _, _, _ => none
        | none => unescapeHost h
      else none
    else none
  | _ =>
    if h.contains ':' then
      if (h.reverse.takeWhile fun c => c != ':').all isDigitChar then unescapeHost h
      else none
    else unescapeHost h

/-- validUserinfo: the characters url.Parse allows in the userinfo. -/
def validUserinfoChar (c : Char) : Bool :=
  isAlphaChar c || isDigitChar c ||
  c == '-' || c == '.' || c == '_' || c == ':' || c == '~' || c == '!' ||
  c == '$' || c == '&' || c == '\'' || c == '(' || c == ')' || c == '*' ||
  c == '+' || c == ',' || c == ';' || c == '=' || c == '%' || c == '@'

/-- parseAuthority: the host is the part after the last @; a present
userinfo must consist of valid characters and unescape cleanly (user and
password split at the first colon). -/
def parseAuthorityChars (auth : List Char) : Option (List Char) :=
  if auth.contains '@' then
    let hostPart := (auth.reverse.takeWhile fun c => c != '@').reverse
    let userinfo := auth.take (auth.length - hostPart.length - 1)
    match parseHostChars hostPart with
    | none => none
    | some host =>
      if userinfo.all validUserinfoChar then
        if userinfo.contains ':' then
          if escapesOK (takeUntil ':' userinfo) &&
              escapesOK (userinfo.drop ((takeUntil ':' userinfo).length + 1)) then
            some host
          else none
        else if escapesOK userinfo then some host else none
      else none
  else parseHostChars auth

/-- getScheme: after leading letters and scheme characters, the index of
the scheme colon; none when a character ends the scan without a colon. -/
def schemeColonIdx : List Char → Nat → Option Nat
  | [], _ => none
  | c :: rest, i =>
    if isAlphaChar c then schemeColonIdx rest (i + 1)
    else if c == ':' then some i
    else if isDigitChar c || c == '+' || c == '-' || c == '.' then
      if i == 0 then none else schemeColonIdx rest (i + 1)
    else none

/-- getScheme: none is the missing-protocol-scheme error (a leading
colon); otherwise the scheme (possibly empty) and the rest. -/
def splitScheme (u : List Char) : Option (List Char × List Char) :=
  match u with
  | ':' :: _ => none
  | _ =>
    match schemeColonIdx u 0 with
    | some i => some (u.take i, u.drop (i + 1))
    | none => some ([], u)

/-- The body of url.parse (viaRequest false) after the fragment was cut
off: none exactly when parse returns an error, otherwise the Host. -/
def parseURLMain (u : List Char) : Option (List Char) :=
  if u = "*".data then some []
  else
    match splitScheme u with
    | none => none
    | some x =>
      let scheme := x.1
      let rest := takeUntil '?' x.2
      if !(beginsWith "/".data rest) then
        if !scheme.isEmpty then some []
        else if (takeUntil '/' rest).contains ':' then none
        else if escapesOK rest then some [] else none
      else if beginsWith "//".data rest &&
          (!scheme.isEmpty || !(beginsWith "///".data rest)) then
        let afterSlashes := rest.drop 2
        let auth := takeUntil '/' afterSlashes
        let rest2 := afterSlashes.drop auth.length
        match parseAuthorityChars auth with
        | none => none
        | some host => if escapesOK rest2 then some host else none
      else if escapesOK rest then some [] else none

/-- Model of url.Parse as observed by the worker: none exactly when Parse
errors, otherwise the Host field. -/
def goURLHost (s : String) : Option String :=
  let raw := s.data
  if containsCTL raw then none
  else
    let beforeFrag := takeUntil '#' raw
    let frag := raw.drop (beforeFrag.length + 1)
    if !escapesOK frag then none
    else
      match parseURLMain beforeFrag with
      | some host => some (String.mk host)
      | none => none

/-- One Result row (struct Result in main.go). -/
structure Result where
  ID : Nat
  Domain : String
  FeedURL : String
  LastItem : String
  Health : String
  deriving DecidableEq, Repr

/-- Everything the network can do to one worker, as an oracle: a transport
level failure of client.Do (DNS, connection, TLS, timeout), or a response
with a status, a declared content type and a body; body none models a read
failure. -/
inductive FetchOutcome where
  | transportFailure
  | httpResponse (status : Nat) (contentType : String) (body : Option String)
  deriving Repr

/-- The read cap applied by io.LimitReader: 256 KiB. -/
def maxRead : Nat := 256 * 1024

/-- Model of io.ReadAll(io.LimitReader(resp.Body, maxRead)). -/
def readCapped (body : List Char) : List Char := body.take maxRead

/-- The worker body (main.go lines 136-200) for one URL at 0-based slot
idx, given the network outcome: every fetch stage failure short-circuits to
health broken; a successful read is capped and classified. -/
def runWorker (seqID : Nat) (feedURL : String) (net : FetchOutcome) : Result :=
  let domain := match goURLHost feedURL with
    | some h => h
    | none => ""
  match goURLHost feedURL with
  | none => ⟨seqID, domain, feedURL, "", "broken"⟩
  | some _ =>
    match net with
    | .transportFailure => ⟨seqID, domain, feedURL, "", "broken"⟩
    | .httpResponse status ct body =>
      if 400 ≤ status then ⟨seqID, domain, feedURL, "", "broken"⟩
      else
        match body with
        | none => ⟨seqID, domain, feedURL, "", "broken"⟩
        | some data =>
          let r := classifyResponse (String.mk (readCapped data.data)) ct
          ⟨seqID, domain, feedURL, if r.1 then r.2.1 else "", r.2.2⟩

/-- The dispatcher loop: worker k serves input position k (0-based) and
writes Result with ID k+1 into slot k; the oracle gives each position its
network outcome. -/
def runPoolFrom (net : Nat → FetchOutcome) : Nat → List String → List Result
  | _, [] => []
  | k, u :: rest => runWorker (k + 1) u (net k) :: runPoolFrom net (k + 1) rest

/-- The completed, index-ordered result collection before ranking. -/
def runPool (urls : List String) (net : Nat → FetchOutcome) : List Result :=
  runPoolFrom net 0 urls

/-! ## Ranker (main.go lines 207-234) -/

def healthRank : List (String × Nat) :=
  [("healthy", 0), ("not an rss feed", 1), ("broken", 2)]

def lookupRank : List (String × Nat) → String → Option Nat
  | [], _ => none
  | kv :: rest, h => if h = kv.1 then some kv.2 else lookupRank rest h

/-- getRank from main.go: empty and unknown health map to the broken tier. -/
def getRank (h : String) : Nat :=
  if h = "" then 2
  else
    match lookupRank healthRank h with
    | some v => v
    | none => 2

/-- Lexicographic strict order on character lists by code point.  The Go
comparison on strings is lexicographic on UTF-8 bytes; the theorem
utf8Bytes_lexLt below proves that the byte order and this code point order
coincide. -/
def lexLtB : List Char → List Char → Bool
  | [], [] => false
  | [], _ :: _ => true
  | _ :: _, [] => false
  | a :: as, b :: bs =>
    if a.toNat < b.toNat then true
    else if b.toNat < a.toNat then false
    else lexLtB as bs

/-- The UTF-8 bytes of one character, as Go stores strings. -/
def utf8Bytes (c : Char) : List Nat :=
  let v := c.toNat
  if v < 0x80 then [v]
  else if v < 0x800 then [0xC0 + v / 64, 0x80 + v % 64]
  else if v < 0x10000 then [0xE0 + v / 4096, 0x80 + v / 64 % 64, 0x80 + v % 64]
  else [0xF0 + v / 0x40000, 0x80 + v / 4096 % 64, 0x80 + v / 64 % 64, 0x80 + v % 64]

/-- The UTF-8 byte sequence of a string. -/
def strBytes (s : List Char) : List Nat :=
  s.flatMap utf8Bytes

/-- Lexicographic strict order on byte sequences: the Go string order. -/
def byteLexLt : List Nat → List Nat → Bool
  | [], [] => false
  | [], _ :: _ => true
  | _ :: _, [] => false
  | a :: as, b :: bs =>
    if a < b then true
    else if b < a then false
    else byteLexLt as bs

/-- The comparison closure passed to sort.SliceStable; string comparisons
by code point, proved below to agree with the UTF-8 byte order Go uses. -/
def resultLess (a b : Result) : Bool :=
  let ra := getRank a.Health
  let rb := getRank b.Health
  if ra ≠ rb then decide (ra < rb)
  else if a.Domain.data ≠ b.Domain.data then lexLtB a.Domain.data b.Domain.data
  else lexLtB a.FeedURL.data b.FeedURL.data

/-- sort.SliceStable is specified as the stable sort by resultLess; a
stable merge sort under the complementary total preorder realizes it (the
claim theorem proves sortedness, permutation and stability, which together
are exactly the sort.SliceStable contract and determine the output
uniquely). -/
def sortResults (rs : List Result) : List Result :=
  rs.mergeSort fun a b => !resultLess b a

/-- The three sorting keys of one Result. -/
def sortKey (r : Result) : Nat × List Char × List Char :=
  (getRank r.Health, r.Domain.data, r.FeedURL.data)

/-- Lexicographic strict order on key triples: tier, then domain, then URL. -/
def keyLt (x y : Nat × List Char × List Char) : Bool :=
  if x.1 ≠ y.1 then decide (x.1 < y.1)
  else if x.2.1 ≠ y.2.1 then lexLtB x.2.1 y.2.1
  else lexLtB x.2.2 y.2.2

/-! ## Worker pool admission gate (main.go lines 118-138)

The semaphore channel is modelled as an interleaving state machine: each
worker is pending, fetching (holding one of the limit slots, acquired
before the fetch starts), or done (slot released).  Fetching happens only
in the fetching phase. -/

def concurrencyLimit : Nat := 5

inductive WorkerPhase where
  | pending
  | fetching
  | done
  deriving DecidableEq, Repr

def countFetching (ws : List WorkerPhase) : Nat :=
  ws.countP fun w => w == WorkerPhase.fetching

/-- The two semaphore transitions: acquire blocks unless a slot is free;
release happens when a worker completes. -/
inductive PoolStep : List WorkerPhase → List WorkerPhase → Prop where
  | acquire (pre post : List WorkerPhase)
      (hfree : countFetching (pre ++ WorkerPhase.pending :: post) < concurrencyLimit) :
      PoolStep (pre ++ WorkerPhase.pending :: post) (pre ++ WorkerPhase.fetching :: post)
  | release (pre post : List WorkerPhase) :
      PoolStep (pre ++ WorkerPhase.fetching :: post) (pre ++ WorkerPhase.done :: post)

def initPool (n : Nat) : List WorkerPhase := List.replicate n WorkerPhase.pending

/-- States reachable by any interleaving of a run over n workers. -/
inductive PoolReachable (n : Nat) : List WorkerPhase → Prop where
  | init : PoolReachable n (initPool n)
  | step {s s2 : List WorkerPhase} :
      PoolReachable n s → PoolStep s s2 → PoolReachable n s2

/-! ## General lemmas -/

theorem data_mk (l : List Char) : (String.mk l).data = l := rfl

theorem afterB_iff (t u : GoTime) :
    afterB t u = true ↔ (u.sec < t.sec ∨ (t.sec = u.sec ∧ u.nsec < t.nsec)) := by
  simp [afterB, Bool.or_eq_true, decide_eq_true_eq, Bool.and_eq_true, beq_iff_eq]

theorem afterB_trans {a b c : GoTime} (h1 : afterB a b = true) (h2 : afterB b c = true) :
    afterB a c = true := by
  rw [afterB_iff] at h1 h2 ⊢
  omega

theorem isZeroB_iff (t : GoTime) : isZeroB t = true ↔ t = zeroGoTime := by
  cases t with
  | mk s n => simp [isZeroB, zeroGoTime, GoTime.mk.injEq]

/-- One fold step either keeps the accumulator or moves strictly up. -/
theorem latestStep_cases (acc : GoTime) (m : List Char) :
    latestStep acc m = acc ∨ afterB (latestStep acc m) acc = true := by
  unfold latestStep
  cases hp : parseDateGuess (String.mk (trimSpace m)) with
  | none => left; rfl
  | some t =>
    by_cases ha : afterB t acc = true
    · right; simp only [if_pos ha]; exact ha
    · left; simp only [if_neg ha]

/-- The fold either returns its seed or something strictly after it. -/
theorem foldl_latestStep_eq_or_after (l : List (List Char)) (acc : GoTime) :
    l.foldl latestStep acc = acc ∨ afterB (l.foldl latestStep acc) acc = true := by
  induction l generalizing acc with
  | nil => left; rfl
  | cons m ms ih =>
    rw [List.foldl_cons]
    have hc := latestStep_cases acc m
    generalize hg : latestStep acc m = b at hc ⊢
    rcases ih b with h | h <;> rcases hc with h2 | h2
    · left; rw [h, h2]
    · right; rw [h]; exact h2
    · right; rw [h2] at h ⊢; exact h
    · right; exact afterB_trans h h2

/-- The classifier pipeline in gate form. -/
theorem classifyResponse_eq (body ct : String) :
    classifyResponse body ct =
      (if htmlGate body ct then (false, "", "not an rss feed")
       else if feedMarkerGate body then
         (if !isZeroB (latestDate body.data) then
            (true, formatRFC3339UTC (latestDate body.data), "healthy")
          else (true, "", "healthy"))
       else (false, "", "broken")) := rfl

/-! ## Claims C1, C7, C10 -/

/-- C1: whenever the declared content type contains html case-insensitively
or the body contains an HTML document marker case-insensitively, the
classifier returns not-a-feed (the string used by the code is
"not an rss feed") with no timestamp, regardless of any feed markers also
present in the body. -/
theorem claim_C1 (body ct : String)
    (h : strContains (lowerStr ct.data) "html".data = true ∨
         strContains (lowerStr body.data) "<html".data = true ∨
         strContains (lowerStr body.data) "<!doctype html".data = true) :
    classifyResponse body ct = (false, "", "not an rss feed") := by
  rw [classifyResponse_eq]
  have hg : htmlGate body ct = true := by
    unfold htmlGate
    rcases h with h | h | h <;> simp [h]
  rw [if_pos hg]

/-- C1 witness: a body holding both an HTML marker and a feed marker, with
an upper-case HTML content type, classifies not-a-feed. -/
theorem claim_C1_witness :
    classifyResponse "<html><rss" "TEXT/HTML" = (false, "", "not an rss feed") :=
  claim_C1 "<html><rss" "TEXT/HTML" (Or.inl (by decide))

/-- C10: a reported lastItemTimestamp always formats an instant strictly
after the Go zero time, because the maximum is tracked by strict After
seeded at the zero time; a feed-like body whose only parseable date is
exactly the zero instant reports no timestamp, like a feed with no
parseable date at all. -/
theorem claim_C10 :
    (∀ body ct : String,
      (classifyResponse body ct).2.1 ≠ "" →
        afterB (latestDate body.data) zeroGoTime = true ∧
        (classifyResponse body ct).2.1 = formatRFC3339UTC (latestDate body.data)) ∧
    parseDateGuess "0001-01-01T00:00:00Z" = some zeroGoTime ∧
    classifyResponse "<rss><updated>0001-01-01T00:00:00Z</updated>" "" =
      (true, "", "healthy") ∧
    classifyResponse "<rss>" "" = (true, "", "healthy") := by
  refine ⟨?_, by decide, by decide, by decide⟩
  intro body ct hne
  rw [classifyResponse_eq] at hne ⊢
  by_cases h1 : htmlGate body ct = true
  · rw [if_pos h1] at hne
    exact absurd rfl hne
  · rw [if_neg h1] at hne ⊢
    by_cases h2 : feedMarkerGate body = true
    · rw [if_pos h2] at hne ⊢
      by_cases h3 : isZeroB (latestDate body.data) = true
      · rw [h3] at hne
        simp at hne
      · have hnz : latestDate body.data ≠ zeroGoTime := fun he => h3 ((isZeroB_iff _).mpr he)
        have hpos : afterB (latestDate body.data) zeroGoTime = true := by
          rcases foldl_latestStep_eq_or_after (extractDates body.data) zeroGoTime with h | h
          · exact absurd h hnz
          · exact h
        rw [Bool.not_eq_true] at h3
        rw [h3] at hne ⊢
        exact ⟨hpos, rfl⟩
    · rw [if_neg h2] at hne
      exact absurd rfl hne

/-- C10 witness: a feed with one RFC1123 date strictly after the zero time
reports that date, which is strictly after the zero time. -/
theorem claim_C10_witness :
    afterB (latestDate "<rss><pubDate>Mon, 02 Jan 2006 15:04:05 GMT</pubDate>".data)
      zeroGoTime = true :=
  ((claim_C10.1 "<rss><pubDate>Mon, 02 Jan 2006 15:04:05 GMT</pubDate>" "")
    (by decide)).1

/-! ## Claim C5: structure of the date parser -/

theorem tryLayoutList_eq_findSome (Ls : List (List LTok)) (s : List Char) :
    tryLayoutList Ls s = Ls.findSome? (fun L => goTimeParse L s) := by
  induction Ls with
  | nil => rfl
  | cons L Ls ih =>
    rw [tryLayoutList, List.findSome?_cons]
    cases goTimeParse L s <;> simp [ih]

/-- C5: parseDateGuess trims and strips optional CDATA wrapping, then takes
the first successful parse over the fixed ordered nine-layout list, makes
exactly one fallback attempt with the default GMT suffix appended when all
layouts fail, and otherwise fails; the classifier treats that failure as no
date available, not as fatal. -/
theorem claim_C5 :
    (∀ s : String, parseDateGuess s = specDateParse s) ∧
    goLayouts.length = 9 ∧
    classifyResponse "<rss><pubDate>Not A Date</pubDate>" "" = (true, "", "healthy") := by
  refine ⟨?_, rfl, by decide⟩
  intro s
  unfold parseDateGuess specDateParse
  simp only [tryLayoutList_eq_findSome]

/-! ## Claim C8: the body read cap -/

/-- C8: the classified body is read through a 256 KiB cap: its length never
exceeds the cap, a short body passes unchanged, a long body is cut to
exactly the cap, and the worker result is unchanged when the raw body is
replaced by its capped prefix (bytes past the cap are never observed). -/
theorem claim_C8 (raw : String) (status : Nat) (ct url : String) (seqID : Nat) :
    (readCapped raw.data).length = min maxRead raw.data.length ∧
    (raw.data.length ≤ maxRead → readCapped raw.data = raw.data) ∧
    (maxRead < raw.data.length → (readCapped raw.data).length = maxRead) ∧
    readCapped raw.data = raw.data.take 262144 ∧
    runWorker seqID url (.httpResponse status ct (some raw)) =
      runWorker seqID url (.httpResponse status ct (some (String.mk (readCapped raw.data)))) := by
  refine ⟨?_, ?_, ?_, rfl, ?_⟩
  · rw [readCapped]
    exact List.length_take maxRead raw.data
  · intro h
    exact List.take_of_length_le h
  · intro h
    rw [readCapped, List.length_take]
    omega
  · unfold runWorker
    cases hu : goURLHost url with
    | none => rfl
    | some h =>
      by_cases hs : 400 ≤ status
      · simp [hs]
      · simp [hs, readCapped, data_mk, List.take_take]

/-- C8 witness: a short body passes the cap unchanged. -/
theorem claim_C8_witness : readCapped "abc".data = "abc".data :=
  (claim_C8 "abc" 200 "" "u" 1).2.1 (by decide)

/-! ## Claim C2: date extraction and the maximum timestamp

The claim fails on the code at one edge: a capture that parses to exactly
the zero instant counts as a successful parse for the claim, but the code
tracks the maximum with strict After seeded at the zero time, so such a
date never produces a timestamp. -/

theorem runWorker_ID (seqID : Nat) (u : String) (net : FetchOutcome) :
    (runWorker seqID u net).ID = seqID := by
  unfold runWorker
  cases hu : goURLHost u with
  | none => rfl
  | some h =>
    cases net with
    | transportFailure => rfl
    | httpResponse status ct body =>
      by_cases hs : 400 ≤ status
      · simp [hs]
      · cases body with
        | none => simp [hs]
        | some data => simp [hs]

theorem runWorker_FeedURL (seqID : Nat) (u : String) (net : FetchOutcome) :
    (runWorker seqID u net).FeedURL = u := by
  unfold runWorker
  cases hu : goURLHost u with
  | none => rfl
  | some h =>
    cases net with
    | transportFailure => rfl
    | httpResponse status ct body =>
      by_cases hs : 400 ≤ status
      · simp [hs]
      · cases body with
        | none => simp [hs]
        | some data => simp [hs]

theorem classifyResponse_health_mem (body ct : String) :
    (classifyResponse body ct).2.2 = "healthy" ∨
    (classifyResponse body ct).2.2 = "not an rss feed" ∨
    (classifyResponse body ct).2.2 = "broken" := by
  rw [classifyResponse_eq]
  by_cases h1 : htmlGate body ct = true
  · rw [if_pos h1]; right; left; rfl
  · rw [if_neg h1]
    by_cases h2 : feedMarkerGate body = true
    · rw [if_pos h2]
      by_cases h3 : (!isZeroB (latestDate body.data)) = true
      · rw [if_pos h3]; left; rfl
      · rw [if_neg h3]; left; rfl
    · rw [if_neg h2]; right; right; rfl

theorem runWorker_Health_mem (seqID : Nat) (u : String) (net : FetchOutcome) :
    (runWorker seqID u net).Health = "healthy" ∨
    (runWorker seqID u net).Health = "not an rss feed" ∨
    (runWorker seqID u net).Health = "broken" := by
  unfold runWorker
  cases hu : goURLHost u with
  | none => right; right; rfl
  | some h =>
    cases net with
    | transportFailure => right; right; rfl
    | httpResponse status ct body =>
      by_cases hs : 400 ≤ status
      · simp [hs]
      · cases body with
        | none => simp [hs]
        | some data =>
          simp only [hs, if_false, if_neg hs]
          exact classifyResponse_health_mem _ _

theorem runPoolFrom_length (net : Nat → FetchOutcome) :
    ∀ (urls : List String) (k : Nat), (runPoolFrom net k urls).length = urls.length := by
  intro urls
  induction urls with
  | nil => intro k; rfl
  | cons u rest ih =>
    intro k
    rw [runPoolFrom, List.length_cons, List.length_cons, ih (k + 1)]

theorem runPoolFrom_get? (net : Nat → FetchOutcome) :
    ∀ (urls : List String) (k j : Nat),
      (runPoolFrom net k urls).get? j =
        (urls.get? j).map (fun u => runWorker (k + j + 1) u (net (k + j))) := by
  intro urls
  induction urls with
  | nil => intro k j; rfl
  | cons u rest ih =>
    intro k j
    cases j with
    | zero => rfl
    | succ j =>
      rw [runPoolFrom, List.get?_cons_succ, List.get?_cons_succ, ih (k + 1) j]
      have h1 : k + 1 + j = k + (j + 1) := by omega
      rw [h1]

theorem runPoolFrom_map_id (net : Nat → FetchOutcome) :
    ∀ (urls : List String) (k : Nat),
      (runPoolFrom net k urls).map Result.ID = List.range' (k + 1) urls.length := by
  intro urls
  induction urls with
  | nil => intro k; rfl
  | cons u rest ih =>
    intro k
    rw [runPoolFrom, List.map_cons, List.length_cons, List.range'_succ, ih (k + 1),
      runWorker_ID]

theorem runPoolFrom_health_mem (net : Nat → FetchOutcome) :
    ∀ (urls : List String) (k : Nat) (r : Result), r ∈ runPoolFrom net k urls →
      r.Health = "healthy" ∨ r.Health = "not an rss feed" ∨ r.Health = "broken" := by
  intro urls
  induction urls with
  | nil => intro k r hr; cases hr
  | cons u rest ih =>
    intro k r hr
    rcases List.mem_cons.mp hr with rfl | hmem
    · exact runWorker_Health_mem (k + 1) u (net k)
    · exact ih (k + 1) r hmem

/-! ## Claim C4: fetch stage failures degrade one Result to broken -/

/-- C6: for every input list the drained pool holds exactly one Result per
input URL, each written at the slot of the original position of its URL
with sequenceID equal to the 1-based position — so the sequenceIDs are
exactly 1..N in slot order — and every health value belongs to the fixed
set. -/
theorem claim_C6 (urls : List String) (net : Nat → FetchOutcome) :
    (runPool urls net).length = urls.length ∧
    (runPool urls net).map Result.ID = List.range' 1 urls.length ∧
    (∀ (j : Nat) (u : String), urls.get? j = some u →
        (runPool urls net).get? j = some (runWorker (j + 1) u (net j))) ∧
    (∀ r ∈ runPool urls net,
        r.Health = "healthy" ∨ r.Health = "not an rss feed" ∨ r.Health = "broken") := by
  refine ⟨runPoolFrom_length net urls 0, runPoolFrom_map_id net urls 0, ?_, ?_⟩
  · intro j u hu
    rw [runPool, runPoolFrom_get?, hu]
    have hz : 0 + j = j := by omega
    rw [hz]
    rfl
  · intro r hr
    exact runPoolFrom_health_mem net urls 0 r hr

/-- C6 witness: a two-URL pool (one URL malformed) yields IDs 1 and 2 in
slot order and the malformed slot holds its own broken Result. -/
theorem claim_C6_witness :
    (runPool ["http://a.example/x", "bad url \x00"]
        (fun _ => FetchOutcome.transportFailure)).map Result.ID = List.range' 1 2 ∧
    (runPool ["http://a.example/x", "bad url \x00"]
        (fun _ => FetchOutcome.transportFailure)).get? 1 =
      some (runWorker 2 "bad url \x00" FetchOutcome.transportFailure) :=
  ⟨(claim_C6 ["http://a.example/x", "bad url \x00"]
      (fun _ => FetchOutcome.transportFailure)).2.1,
   (claim_C6 ["http://a.example/x", "bad url \x00"]
      (fun _ => FetchOutcome.transportFailure)).2.2.1 1 "bad url \x00" (by decide)⟩

/-! ## Claim C9: the concurrency bound -/

theorem countFetching_initPool (n : Nat) : countFetching (initPool n) = 0 := by
  unfold initPool countFetching
  induction n with
  | zero => rfl
  | succ k ih =>
    rw [List.replicate_succ, List.countP_cons]
    simp [ih]

/-- C9: the fixed limit is 5, and in every state reachable by any
interleaving of acquire and release transitions, at most limit workers are
fetching: a worker fetches only while holding one of the limit semaphore
slots, a pending worker can start only when a slot is free, and completion
releases the slot. -/
theorem claim_C9 :
    concurrencyLimit = 5 ∧
    ∀ (n : Nat) (s : List WorkerPhase), PoolReachable n s →
      countFetching s ≤ concurrencyLimit := by
  refine ⟨rfl, ?_⟩
  intro n s h
  induction h with
  | init =>
    rw [countFetching_initPool]
    exact Nat.zero_le _
  | step hr hstep ih =>
    cases hstep with
    | acquire pre post hfree =>
      have hpf : (WorkerPhase.pending == WorkerPhase.fetching) = false := rfl
      have hff : (WorkerPhase.fetching == WorkerPhase.fetching) = true := rfl
      rw [countFetching, List.countP_append, List.countP_cons] at hfree ⊢
      rw [hpf] at hfree
      rw [hff]
      simp at hfree ⊢
      omega
    | release pre post =>
      have hff : (WorkerPhase.fetching == WorkerPhase.fetching) = true := rfl
      have hdf : (WorkerPhase.done == WorkerPhase.fetching) = false := rfl
      rw [countFetching, List.countP_append, List.countP_cons] at ih ⊢
      rw [hff] at ih
      rw [hdf]
      simp at ih ⊢
      omega

/-- C9 witness: the initial state of a ten-worker run satisfies the bound. -/
theorem claim_C9_witness : countFetching (initPool 10) ≤ concurrencyLimit :=
  claim_C9.2 10 (initPool 10) PoolReachable.init

/-! ## Claim C3: the ranking order -/

theorem char_eq_of_toNat_eq {x y : Char} (h : x.toNat = y.toNat) : x = y := by
  have h2 := congrArg Char.ofNat h
  rwa [Char.ofNat_toNat, Char.ofNat_toNat] at h2

theorem resultLess_eq_keyLt (a b : Result) :
    resultLess a b = keyLt (sortKey a) (sortKey b) := rfl

theorem lexLtB_cons_iff (x y : Char) (xs ys : List Char) :
    lexLtB (x :: xs) (y :: ys) = true ↔
      (x.toNat < y.toNat ∨ (x.toNat = y.toNat ∧ lexLtB xs ys = true)) := by
  simp only [lexLtB]
  by_cases h1 : x.toNat < y.toNat
  · simp [h1]
  · by_cases h2 : y.toNat < x.toNat
    · have hne : ¬ x.toNat = y.toNat := by omega
      simp [h1, h2, hne]
    · have heq : x.toNat = y.toNat := by omega
      simp [h1, h2, heq]

theorem lexLtB_irrefl : ∀ l : List Char, lexLtB l l = false
  | [] => rfl
  | c :: cs => by
    rw [show lexLtB (c :: cs) (c :: cs) =
        (if c.toNat < c.toNat then true
         else if c.toNat < c.toNat then false else lexLtB cs cs) from rfl]
    simp [lexLtB_irrefl cs]

theorem lexLtB_trans : ∀ a b c : List Char,
    lexLtB a b = true → lexLtB b c = true → lexLtB a c = true := by
  intro a
  induction a with
  | nil =>
    intro b c hab hbc
    cases b with
    | nil => simp [lexLtB] at hab
    | cons y ys =>
      cases c with
      | nil => simp [lexLtB] at hbc
      | cons z zs => rfl
  | cons x xs ih =>
    intro b c hab hbc
    cases b with
    | nil => simp [lexLtB] at hab
    | cons y ys =>
      cases c with
      | nil => simp [lexLtB] at hbc
      | cons z zs =>
        rw [lexLtB_cons_iff] at hab hbc ⊢
        rcases hab with h | ⟨e, h⟩ <;> rcases hbc with g | ⟨f, g⟩
        · left; omega
        · left; omega
        · left; omega
        · right; exact ⟨by omega, ih ys zs h g⟩

theorem lexLtB_trichotomy : ∀ a b : List Char,
    lexLtB a b = true ∨ lexLtB b a = true ∨ a = b := by
  intro a
  induction a with
  | nil =>
    intro b
    cases b with
    | nil => right; right; rfl
    | cons y ys => left; rfl
  | cons x xs ih =>
    intro b
    cases b with
    | nil => right; left; rfl
    | cons y ys =>
      rcases Nat.lt_trichotomy x.toNat y.toNat with h | h | h
      · left; rw [lexLtB_cons_iff]; exact Or.inl h
      · rcases ih ys with h2 | h2 | h2
        · left; rw [lexLtB_cons_iff]; exact Or.inr ⟨h, h2⟩
        · right; left; rw [lexLtB_cons_iff]; exact Or.inr ⟨h.symm, h2⟩
        · right; right; rw [char_eq_of_toNat_eq h, h2]
      · right; left; rw [lexLtB_cons_iff]; exact Or.inl h

theorem keyLt_iff (x y : Nat × List Char × List Char) :
    keyLt x y = true ↔
      x.1 < y.1 ∨ (x.1 = y.1 ∧ lexLtB x.2.1 y.2.1 = true) ∨
      (x.1 = y.1 ∧ x.2.1 = y.2.1 ∧ lexLtB x.2.2 y.2.2 = true) := by
  unfold keyLt
  by_cases h1 : x.1 = y.1
  · by_cases h2 : x.2.1 = y.2.1
    · simp [h1, h2, lexLtB_irrefl]
    · simp [h1, h2]
  · simp [h1]

theorem keyLt_irrefl (x : Nat × List Char × List Char) : keyLt x x = false := by
  simp [keyLt, lexLtB_irrefl]

theorem keyLt_trans (x y z : Nat × List Char × List Char)
    (h1 : keyLt x y = true) (h2 : keyLt y z = true) : keyLt x z = true := by
  rw [keyLt_iff] at h1 h2 ⊢
  rcases h1 with h | ⟨e, h⟩ | ⟨e, e2, h⟩ <;> rcases h2 with g | ⟨f, g⟩ | ⟨f, f2, g⟩
  · exact Or.inl (Nat.lt_trans h g)
  · exact Or.inl (f ▸ h)
  · exact Or.inl (f ▸ h)
  · exact Or.inl (e ▸ g)
  · exact Or.inr (Or.inl ⟨e.trans f, lexLtB_trans _ _ _ h g⟩)
  · exact Or.inr (Or.inl ⟨e.trans f, f2 ▸ h⟩)
  · exact Or.inl (e ▸ g)
  · exact Or.inr (Or.inl ⟨e.trans f, e2 ▸ g⟩)
  · exact Or.inr (Or.inr ⟨e.trans f, e2.trans f2, lexLtB_trans _ _ _ h g⟩)

theorem keyLt_or (x y : Nat × List Char × List Char) :
    keyLt x y = true ∨ keyLt y x = true ∨ x = y := by
  rcases Nat.lt_trichotomy x.1 y.1 with h | h | h
  · exact Or.inl ((keyLt_iff x y).mpr (Or.inl h))
  · rcases lexLtB_trichotomy x.2.1 y.2.1 with h2 | h2 | h2
    · exact Or.inl ((keyLt_iff x y).mpr (Or.inr (Or.inl ⟨h, h2⟩)))
    · exact Or.inr (Or.inl ((keyLt_iff y x).mpr (Or.inr (Or.inl ⟨h.symm, h2⟩))))
    · rcases lexLtB_trichotomy x.2.2 y.2.2 with h3 | h3 | h3
      · exact Or.inl ((keyLt_iff x y).mpr (Or.inr (Or.inr ⟨h, h2, h3⟩)))
      · exact Or.inr (Or.inl ((keyLt_iff y x).mpr (Or.inr (Or.inr ⟨h.symm, h2.symm, h3⟩))))
      · right; right
        obtain ⟨a1, a2, a3⟩ := x
        obtain ⟨b1, b2, b3⟩ := y
        simp only at h h2 h3
        rw [h, h2, h3]
  · exact Or.inr (Or.inl ((keyLt_iff y x).mpr (Or.inl h)))

theorem keyLt_not_both (x y : Nat × List Char × List Char)
    (h1 : keyLt x y = true) (h2 : keyLt y x = true) : False := by
  have h3 := keyLt_trans x y x h1 h2
  rw [keyLt_irrefl] at h3
  cases h3

theorem resultLE_trans (a b c : Result)
    (h1 : (!resultLess b a) = true) (h2 : (!resultLess c b) = true) :
    (!resultLess c a) = true := by
  rw [Bool.not_eq_true', resultLess_eq_keyLt] at h1 h2 ⊢
  by_contra hc
  rw [Bool.not_eq_false] at hc
  rcases keyLt_or (sortKey a) (sortKey b) with h | h | h
  · have h3 := keyLt_trans _ _ _ hc h
    rw [h2] at h3
    cases h3
  · rw [h1] at h
    cases h
  · rw [h] at hc
    rw [h2] at hc
    cases hc

theorem resultLE_total (a b : Result) :
    ((!resultLess b a) || (!resultLess a b)) = true := by
  rw [resultLess_eq_keyLt, resultLess_eq_keyLt]
  by_cases h1 : keyLt (sortKey b) (sortKey a) = true
  · by_cases h2 : keyLt (sortKey a) (sortKey b) = true
    · exact (keyLt_not_both _ _ h1 h2).elim
    · rw [Bool.not_eq_true] at h2
      rw [h2]
      simp
  · rw [Bool.not_eq_true] at h1
    rw [h1]
    simp

/-! The Go string comparison is lexicographic on UTF-8 bytes; the model
compares code points.  The following lemmas prove that the two orders are
the same, so the comparator is exactly the order the program uses. -/

theorem byteLexLt_cons (x y : Nat) (xs ys : List Nat) :
    byteLexLt (x :: xs) (y :: ys) =
      (if x < y then true else if y < x then false else byteLexLt xs ys) := rfl

theorem byteLexLt_asymm : ∀ a b : List Nat,
    byteLexLt a b = true → byteLexLt b a = false := by
  intro a
  induction a with
  | nil =>
    intro b h
    cases b with
    | nil => simp [byteLexLt] at h
    | cons y ys => rfl
  | cons x xs ih =>
    intro b h
    cases b with
    | nil => simp [byteLexLt] at h
    | cons y ys =>
      rw [byteLexLt_cons] at h ⊢
      by_cases h1 : x < y
      · have h2 : ¬ y < x := by omega
        simp [h1, h2]
      · by_cases h2 : y < x
        · simp [h1, h2] at h
        · simp [h1, h2] at h ⊢
          exact ih ys h

theorem byteLexLt_append_same : ∀ (p s t : List Nat),
    byteLexLt (p ++ s) (p ++ t) = byteLexLt s t := by
  intro p
  induction p with
  | nil => intro s t; rfl
  | cons x xs ih =>
    intro s t
    rw [List.cons_append, List.cons_append, byteLexLt_cons]
    simp [ih s t]

theorem utf8Bytes_of_rangeA {c : Char} (h : c.toNat < 0x80) :
    utf8Bytes c = [c.toNat] := by
  unfold utf8Bytes
  rw [if_pos h]

theorem utf8Bytes_of_rangeB {c : Char} (h1 : ¬ c.toNat < 0x80) (h2 : c.toNat < 0x800) :
    utf8Bytes c = [0xC0 + c.toNat / 64, 0x80 + c.toNat % 64] := by
  unfold utf8Bytes
  rw [if_neg h1, if_pos h2]

theorem utf8Bytes_of_rangeC {c : Char} (h2 : ¬ c.toNat < 0x800) (h3 : c.toNat < 0x10000) :
    utf8Bytes c = [0xE0 + c.toNat / 4096, 0x80 + c.toNat / 64 % 64, 0x80 + c.toNat % 64] := by
  unfold utf8Bytes
  rw [if_neg (by omega), if_neg h2, if_pos h3]

theorem utf8Bytes_of_rangeD {c : Char} (h3 : ¬ c.toNat < 0x10000) :
    utf8Bytes c = [0xF0 + c.toNat / 0x40000, 0x80 + c.toNat / 4096 % 64,
      0x80 + c.toNat / 64 % 64, 0x80 + c.toNat % 64] := by
  unfold utf8Bytes
  rw [if_neg (by omega), if_neg (by omega), if_neg h3]

theorem utf8Bytes_ne_nil (c : Char) : utf8Bytes c ≠ [] := by
  by_cases h1 : c.toNat < 0x80
  · rw [utf8Bytes_of_rangeA h1]; simp
  · by_cases h2 : c.toNat < 0x800
    · rw [utf8Bytes_of_rangeB h1 h2]; simp
    · by_cases h3 : c.toNat < 0x10000
      · rw [utf8Bytes_of_rangeC h2 h3]; simp
      · rw [utf8Bytes_of_rangeD h3]; simp

/-- Code point order transfers to UTF-8 byte order, with arbitrary tails:
the heart of the agreement between the Go byte order and the model. -/
theorem utf8_order {c d : Char} (h : c.toNat < d.toNat) (s t : List Nat) :
    byteLexLt (utf8Bytes c ++ s) (utf8Bytes d ++ t) = true := by
  rcases Nat.lt_or_ge c.toNat 0x80 with hcA | hcA
  · rcases Nat.lt_or_ge d.toNat 0x80 with hdA | hdA
    · rw [utf8Bytes_of_rangeA hcA, utf8Bytes_of_rangeA hdA]
      simp only [List.singleton_append, byteLexLt_cons]
      split_ifs <;> first | rfl | omega
    · rcases Nat.lt_or_ge d.toNat 0x800 with hdB | hdB
      · rw [utf8Bytes_of_rangeA hcA, utf8Bytes_of_rangeB (by omega) hdB]
        simp only [List.singleton_append, List.cons_append, byteLexLt_cons]
        split_ifs <;> first | rfl | omega
      · rcases Nat.lt_or_ge d.toNat 0x10000 with hdC | hdC
        · rw [utf8Bytes_of_rangeA hcA, utf8Bytes_of_rangeC (by omega) hdC]
          simp only [List.singleton_append, List.cons_append, byteLexLt_cons]
          split_ifs <;> first | rfl | omega
        · rw [utf8Bytes_of_rangeA hcA, utf8Bytes_of_rangeD (by omega)]
          simp only [List.singleton_append, List.cons_append, byteLexLt_cons]
          split_ifs <;> first | rfl | omega
  · rcases Nat.lt_or_ge c.toNat 0x800 with hcB | hcB
    · rcases Nat.lt_or_ge d.toNat 0x800 with hdB | hdB
      · rw [utf8Bytes_of_rangeB (by omega) hcB, utf8Bytes_of_rangeB (by omega) hdB]
        simp only [List.cons_append, List.nil_append, byteLexLt_cons]
        split_ifs <;> first | rfl | omega
      · rcases Nat.lt_or_ge d.toNat 0x10000 with hdC | hdC
        · rw [utf8Bytes_of_rangeB (by omega) hcB, utf8Bytes_of_rangeC (by omega) hdC]
          simp only [List.cons_append, List.nil_append, byteLexLt_cons]
          split_ifs <;> first | rfl | omega
        · rw [utf8Bytes_of_rangeB (by omega) hcB, utf8Bytes_of_rangeD (by omega)]
          simp only [List.cons_append, List.nil_append, byteLexLt_cons]
          split_ifs <;> first | rfl | omega
    · rcases Nat.lt_or_ge c.toNat 0x10000 with hcC | hcC
      · rcases Nat.lt_or_ge d.toNat 0x10000 with hdC | hdC
        · rw [utf8Bytes_of_rangeC (by omega) hcC, utf8Bytes_of_rangeC (by omega) hdC]
          simp only [List.cons_append, List.nil_append, byteLexLt_cons]
          split_ifs <;> first | rfl | omega
        · rw [utf8Bytes_of_rangeC (by omega) hcC, utf8Bytes_of_rangeD (by omega)]
          simp only [List.cons_append, List.nil_append, byteLexLt_cons]
          split_ifs <;> first | rfl | omega
      · rw [utf8Bytes_of_rangeD (by omega), utf8Bytes_of_rangeD (by omega)]
        simp only [List.cons_append, List.nil_append, byteLexLt_cons]
        split_ifs <;> first | rfl | omega

/-- The UTF-8 byte order on encoded strings is the code point order of the
model comparator. -/
theorem strBytes_lexLt : ∀ as bs : List Char,
    byteLexLt (strBytes as) (strBytes bs) = lexLtB as bs := by
  intro as
  induction as with
  | nil =>
    intro bs
    cases bs with
    | nil => rfl
    | cons y ys =>
      rw [show lexLtB [] (y :: ys) = true from rfl]
      rw [show strBytes (y :: ys) = utf8Bytes y ++ strBytes ys from rfl]
      cases hu : utf8Bytes y with
      | nil => exact (utf8Bytes_ne_nil y hu).elim
      | cons b bs2 => rfl
  | cons x xs ih =>
    intro bs
    cases bs with
    | nil =>
      rw [show lexLtB (x :: xs) [] = false from rfl]
      rw [show strBytes (x :: xs) = utf8Bytes x ++ strBytes xs from rfl]
      cases hu : utf8Bytes x with
      | nil => exact (utf8Bytes_ne_nil x hu).elim
      | cons b bs2 => rfl
    | cons y ys =>
      rw [show strBytes (x :: xs) = utf8Bytes x ++ strBytes xs from rfl]
      rw [show strBytes (y :: ys) = utf8Bytes y ++ strBytes ys from rfl]
      rcases Nat.lt_trichotomy x.toNat y.toNat with h | h | h
      · rw [utf8_order h]
        exact ((lexLtB_cons_iff x y xs ys).mpr (Or.inl h)).symm
      · have hxy := char_eq_of_toNat_eq h
        subst hxy
        rw [byteLexLt_append_same, ih ys]
        simp [lexLtB]
      · rw [byteLexLt_asymm _ _ (utf8_order h (strBytes ys) (strBytes xs))]
        have hr : lexLtB (x :: xs) (y :: ys) = false := by
          rw [← Bool.not_eq_true]
          intro hc
          rcases (lexLtB_cons_iff x y xs ys).mp hc with hc2 | ⟨hc2, _⟩ <;> omega
        rw [hr]

/-- C3: the ranking is a deterministic total order on the three-part key —
tier first with healthy before not-a-feed before broken and empty or
unrecognized health in the broken tier, then domain, then the literal URL,
the string comparisons being exactly the UTF-8 byte order Go compares
strings by — realized as a stable sort: the sorted output is a permutation
of the input, adjacent results are never inverted, elements with equal
keys keep their original relative order, sorting a sorted collection is a
no-op, and re-sorting is idempotent. -/
theorem claim_C3 :
    (∀ a b : Result, resultLess a b = keyLt (sortKey a) (sortKey b)) ∧
    (∀ as bs : List Char, byteLexLt (strBytes as) (strBytes bs) = lexLtB as bs) ∧
    getRank "healthy" = 0 ∧
    getRank "not an rss feed" = 1 ∧
    getRank "broken" = 2 ∧
    getRank "" = 2 ∧
    (∀ h : String, h ≠ "healthy" → h ≠ "not an rss feed" → h ≠ "broken" →
        getRank h = 2) ∧
    (∀ a b : Result,
        resultLess a b = true ∨ resultLess b a = true ∨ sortKey a = sortKey b) ∧
    (∀ rs : List Result, List.Perm (sortResults rs) rs) ∧
    (∀ rs : List Result, (sortResults rs).Pairwise fun a b => resultLess b a = false) ∧
    (∀ rs : List Result,
        rs.Pairwise (fun a b => resultLess b a = false) → sortResults rs = rs) ∧
    (∀ rs : List Result, sortResults (sortResults rs) = sortResults rs) ∧
    (∀ (rs : List Result) (K : Nat × List Char × List Char),
        (sortResults rs).filter (fun r => decide (sortKey r = K)) =
          rs.filter (fun r => decide (sortKey r = K))) := by
  have hsorted : ∀ rs : List Result,
      (List.mergeSort rs fun a b => !resultLess b a).Pairwise
        (fun a b => (!resultLess b a) = true) := fun rs =>
    List.sorted_mergeSort resultLE_trans resultLE_total rs
  have hofsorted : ∀ rs : List Result,
      rs.Pairwise (fun a b => (!resultLess b a) = true) →
      List.mergeSort rs (fun a b => !resultLess b a) = rs := fun rs h =>
    List.mergeSort_of_sorted h
  refine ⟨fun a b => rfl, strBytes_lexLt, rfl, rfl, rfl, rfl, ?_, ?_, ?_, ?_, ?_, ?_, ?_⟩
  · intro h h1 h2 h3
    by_cases he : h = ""
    · simp [getRank, he]
    · simp [getRank, lookupRank, healthRank, he, h1, h2, h3]
  · intro a b
    rw [resultLess_eq_keyLt, resultLess_eq_keyLt]
    exact keyLt_or (sortKey a) (sortKey b)
  · intro rs
    exact List.mergeSort_perm rs _
  · intro rs
    exact (hsorted rs).imp fun h => by rwa [Bool.not_eq_true'] at h
  · intro rs h
    exact hofsorted rs (h.imp fun h2 => by rwa [Bool.not_eq_true'])
  · intro rs
    exact hofsorted _ (hsorted rs)
  · intro rs K
    have hp : ∀ x : Result, sortKey x = K → ∀ y : Result, sortKey y = K →
        (!resultLess y x) = true := by
      intro x hx y hy
      rw [Bool.not_eq_true', resultLess_eq_keyLt, hx, hy, keyLt_irrefl]
    have hpair : (rs.filter fun r => decide (sortKey r = K)).Pairwise
        (fun a b => (!resultLess b a) = true) :=
      List.pairwise_of_forall_mem_list fun a ha b hb =>
        hp a (of_decide_eq_true (List.mem_filter.mp ha).2) b
          (of_decide_eq_true (List.mem_filter.mp hb).2)
    have hsub : List.Sublist (rs.filter fun r => decide (sortKey r = K))
        (List.mergeSort rs (fun a b => !resultLess b a)) :=
      List.sublist_mergeSort resultLE_trans resultLE_total hpair (List.filter_sublist rs)
    have hff : ((rs.filter fun r => decide (sortKey r = K)).filter
        fun r => decide (sortKey r = K)) = rs.filter fun r => decide (sortKey r = K) := by
      rw [List.filter_filter]
      have he : (fun (r : Result) => decide (sortKey r = K) && decide (sortKey r = K)) =
          fun r => decide (sortKey r = K) := funext fun r => Bool.and_self _
      rw [he]
    have h3 : List.Sublist (rs.filter fun r => decide (sortKey r = K))
        ((List.mergeSort rs fun a b => !resultLess b a).filter
          fun r => decide (sortKey r = K)) := by
      rw [← hff]
      exact List.Sublist.filter _ hsub
    have h4 : ((List.mergeSort rs fun a b => !resultLess b a).filter
        fun r => decide (sortKey r = K)).length =
        (rs.filter fun r => decide (sortKey r = K)).length :=
      ((List.mergeSort_perm rs fun a b => !resultLess b a).filter _).length_eq
    exact (h3.eq_of_length h4.symm).symm

/-- C3 witness: the unrecognized health value weird ranks in the broken
tier, and sorting a concrete sorted list is a no-op. -/
theorem claim_C3_witness :
    getRank "weird" = 2 ∧
    sortResults [⟨1, "a", "u1", "", "healthy"⟩, ⟨2, "b", "u2", "", "broken"⟩] =
      [⟨1, "a", "u1", "", "healthy"⟩, ⟨2, "b", "u2", "", "broken"⟩] :=
  ⟨claim_C3.2.2.2.2.2.2.1 "weird" (by decide) (by decide) (by decide),
   claim_C3.2.2.2.2.2.2.2.2.2.2.1
     [⟨1, "a", "u1", "", "healthy"⟩, ⟨2, "b", "u2", "", "broken"⟩]
     (by decide)⟩

end RSSHealth
